import Mathlib

/-!
Verification development for the grid-based adaptive domain decomposition
(`GridBasedGrid` in `grids/gridbased.cpp`).

The C++ code is shallowly embedded over exact rational arithmetic (`ℚ` in
place of IEEE doubles).  External collaborators that the core only calls
through an interface are parameters of the model context `Ctx`:

* `octContains` — the tetra-library predicate `tetra::Octagon::contains`,
  a function of the 8 corner points and the queried point;
* `sqrtQ` — the C library square root used by `norm2` / `dist2`;
* `fastRank` — `map_position_node_array` of the host simulation (`grid.hpp`),
  the closed-form position-to-rank resolution on the regular grid;
* `my_right` — the upper-right corner of each rank's initial axis-aligned
  subdomain, copied from `grid.hpp` at construction.

The SPMD collective `repartition` is modelled as a world-level step that
updates the states of all ranks at once, which is exactly what the collective
(all-gather + all-reduce) protocol realizes.
-/

deriving instance DecidableEq for Except

namespace Repa

/-- A 3-vector of (exact) reals; `Vec3d` of the source.  A structure rather
than a function so that state equality is structural. -/
structure V3 where
  x : ℚ
  y : ℚ
  z : ℚ
deriving DecidableEq

def v3 (a b c : ℚ) : V3 := ⟨a, b, c⟩

/-- Component access `v[d]`. -/
def V3.nth (v : V3) (d : Fin 3) : ℚ := if d = 0 then v.x else if d = 1 then v.y else v.z

/-- Componentwise construction. -/
def V3.ofFn (f : Fin 3 → ℚ) : V3 := ⟨f 0, f 1, f 2⟩

def vi3 (a b c : ℤ) : Fin 3 → ℤ := fun d => if d = 0 then a else if d = 1 then b else c

def vn3 (a b c : ℕ) : Fin 3 → ℕ := fun d => if d = 0 then a else if d = 1 then b else c

/-- Association-list lookup; models reads of `std::unordered_map` entries
(`find` when the `Option` is inspected, `operator[]` reads via `getD 0`). -/
def alookup (x : ℕ) : List (ℕ × ℕ) → Option ℕ
  | [] => none
  | (k, v) :: es => if x = k then some v else alookup x es

/-- Model of `push_back_unique` from gridbased.cpp: append an element unless present. -/
def push_back_unique (v : List ℕ) (el : ℕ) : List ℕ :=
  if el ∈ v then v else v ++ [el]

/-- In-place update of the `i`-th vector element (`v[i] = f(v[i])`). -/
def listModify {α : Type} (l : List α) (i : ℕ) (f : α → α) : List α :=
  match l, i with
  | [], _ => []
  | a :: as, 0 => f a :: as
  | a :: as, n + 1 => a :: listModify as n f

/-- The association list `[(l[0], i), (l[1], i+1), ...]`; invariant shape of
`global_to_local` and of `neighbor_idx`, whose values are assignment order. -/
def enumAssocFrom (i : ℕ) : List ℕ → List (ℕ × ℕ)
  | [] => []
  | a :: as => (a, i) :: enumAssocFrom (i + 1) as

def rangeZ (lo hi : ℤ) : List ℤ := (List.range (hi - lo + 1).toNat).map (fun k => lo + k)

/-- The triple-nested offset loop `for off[0] ... for off[1] ... for off[2]`,
in the loop order of the source (first component outermost). -/
def offsetList (lo hi : ℤ) : List (Fin 3 → ℤ) :=
  (rangeZ lo hi).flatMap (fun a => (rangeZ lo hi).flatMap (fun b => (rangeZ lo hi).map (fun c => vi3 a b c)))

/-- Model context: static geometry plus the external collaborators. -/
structure Ctx where
  dims : Fin 3 → ℕ
  box_l : V3
  grid_size : Fin 3 → ℕ
  my_right : ℕ → V3
  fastRank : V3 → ℕ
  octContains : List V3 → V3 → Bool
  sqrtQ : ℚ → ℚ

def nNodes (ctx : Ctx) : ℕ := ctx.dims 0 * ctx.dims 1 * ctx.dims 2

def ncells (ctx : Ctx) : ℕ := ctx.grid_size 0 * ctx.grid_size 1 * ctx.grid_size 2

def cellSize (ctx : Ctx) (d : Fin 3) : ℚ := ctx.box_l.nth d / (ctx.grid_size d : ℚ)

/-- Model of `std::min(std::min(cs[0], cs[1]), cs[2])` from `repartition`. -/
def minCellSize (ctx : Ctx) : ℚ := min (min (cellSize ctx 0) (cellSize ctx 1)) (cellSize ctx 2)

/-- Model of `MPI_Cart_rank` on the periodic Cartesian communicator: wrap each
coordinate into range, then row-major linearization. -/
def cartRank (dims : Fin 3 → ℕ) (c : Fin 3 → ℤ) : ℕ :=
  let w : Fin 3 → ℕ := fun d => ((c d) % (dims d : ℤ)).toNat
  (w 0 * dims 1 + w 1) * dims 2 + w 2

/-- Model of `MPI_Cart_coords` / the coords part of `MPI_Cart_get` (row-major). -/
def cartCoords (dims : Fin 3 → ℕ) (r : ℕ) : Fin 3 → ℕ := fun d =>
  if d = 0 then r / (dims 1 * dims 2) else if d = 1 then r / dims 2 % dims 1 else r % dims 2

/-- The single-step periodic wrap written out in `init_neighbors`:
`if (nc < 0) nc = dims-1; else if (nc == dims) nc = 0;`. -/
def wrap1 (n : ℕ) (z : ℤ) : ℤ := if z < 0 then (n : ℤ) - 1 else if z = (n : ℤ) then 0 else z

/-- Modelled from the spec: `globox.hpp` (the `GlobalBox` component) is not
under src/.  Cell linearization is row-major; `cellIdx3` is its inverse. -/
def cellIdx3 (ctx : Ctx) (g : ℕ) : Fin 3 → ℕ := fun d =>
  if d = 0 then g / (ctx.grid_size 1 * ctx.grid_size 2)
  else if d = 1 then g / ctx.grid_size 2 % ctx.grid_size 1
  else g % ctx.grid_size 2

/-- Modelled from the spec: row-major linearization of a cell coordinate. -/
def linearizeCell (ctx : Ctx) (c : Fin 3 → ℕ) : ℕ :=
  (c 0 * ctx.grid_size 1 + c 1) * ctx.grid_size 2 + c 2

/-- Modelled from the spec: `midpoint(g)` is the cell center in world
coordinates. -/
def midpoint (ctx : Ctx) (g : ℕ) : V3 := V3.ofFn (fun d =>
  ((cellIdx3 ctx g d : ℚ) + 1 / 2) * cellSize ctx d)

/-- Periodic wrap of a coordinate into `[0, L)`. -/
def wrapQ (L x : ℚ) : ℚ := x - L * ⌊x / L⌋

/-- Modelled from the spec: `cell_at_pos(p)` is the floor-division of the
wrapped position by the cell size, linearized. -/
def cell_at_pos (ctx : Ctx) (p : V3) : ℕ :=
  linearizeCell ctx (fun d => (⌊wrapQ (ctx.box_l.nth d) (p.nth d) / cellSize ctx d⌋).toNat)

/-- Modelled from the spec: the 26 periodic shell neighbors of a cell in a
fixed deterministic order (here: offsets in lexicographic order). -/
def full_shell_neigh_without_center (ctx : Ctx) (g : ℕ) : List ℕ :=
  ((offsetList (-1) 1).filter (fun o => decide (¬(o 0 = 0 ∧ o 1 = 0 ∧ o 2 = 0)))).map
    (fun o => linearizeCell ctx (fun d => (((cellIdx3 ctx g d : ℤ) + o d) % (ctx.grid_size d : ℤ)).toNat))

/-- Model of `GhostExchangeDesc`: destination rank (`-1` = unset) and send/recv lists. -/
structure ExDesc where
  dest : ℤ
  send : List ℕ
  recv : List ℕ
deriving DecidableEq

/-- The mutable per-rank state of `GridBasedGrid`.  `my_dom` and
`neighbor_doms` hold the corner lists the octagons were built from; the
predicate itself is the context's `octContains` applied to them. -/
structure MState where
  gridpoint : V3
  gridpoints : List V3
  is_regular_grid : Bool
  my_dom : List V3
  neighbor_doms : List (List V3)
  cells : List ℕ
  global_to_local : List (ℕ × ℕ)
  nlocalcells : ℕ
  nghostcells : ℕ
  exchange_vec : List ExDesc
  mu : ℚ
deriving DecidableEq

def dfltM : MState :=
  ⟨v3 0 0 0, [], true, [], [], [], [], 0, 0, [], 1⟩

inductive Err where
  | EmptySubdomain
  | OutOfNeighborhood
  | NotLocal
  | NotInLocalBox
deriving DecidableEq

/-- Accumulator of `init_neighbors`: the public neighbor list, the
rank-to-index map, and the source/destination neighborhoods of the
distributed graph communicator. -/
structure NeighAcc where
  ranks : List ℕ
  idx : List (ℕ × ℕ)
  src : List ℕ
  dst : List ℕ
deriving DecidableEq

/-- Model of `off[0] >= 0 && off[1] >= 0 && off[2] >= 0` from `init_neighbors`. -/
def pUp (o : Fin 3 → ℤ) : Bool := decide (0 ≤ o 0 ∧ 0 ≤ o 1 ∧ 0 ≤ o 2)

/-- Model of `off[0] <= 0 && off[1] <= 0 && off[2] <= 0` from `init_neighbors`. -/
def pDn (o : Fin 3 → ℤ) : Bool := decide (o 0 ≤ 0 ∧ o 1 ≤ 0 ∧ o 2 ≤ 0)

/-- The rank of the Cartesian neighbor of `me` at offset `off`, with the
single-step periodic wrap of the source. -/
def neighRankAt (ctx : Ctx) (me : ℕ) (off : Fin 3 → ℤ) : ℕ :=
  cartRank ctx.dims (fun d => wrap1 (ctx.dims d) ((cartCoords ctx.dims me d : ℤ) + off d))

/-- One iteration of the 27-offset loop of `init_neighbors`. -/
def neighAccStep (ctx : Ctx) (me : ℕ) (acc : NeighAcc) (off : Fin 3 → ℤ) : NeighAcc :=
  let r := neighRankAt ctx me off
  if r = me then acc
  else
    let acc1 :=
      if (alookup r acc.idx).isSome then acc
      else ⟨acc.ranks ++ [r], acc.idx ++ [(r, acc.ranks.length)], acc.src, acc.dst⟩
    let acc2 := if pUp off then { acc1 with src := push_back_unique acc1.src r } else acc1
    if pDn off then { acc2 with dst := push_back_unique acc2.dst r } else acc2

/-- Model of `init_neighbors` (gridbased.cpp): iterate the 27 offsets in loop order. -/
def init_neighbors (ctx : Ctx) (me : ℕ) : NeighAcc :=
  (offsetList (-1) 1).foldl (neighAccStep ctx me) ⟨[], [], [], []⟩

def neighbor_ranks (ctx : Ctx) (me : ℕ) : List ℕ := (init_neighbors ctx me).ranks

def neighbor_idx (ctx : Ctx) (me : ℕ) : List (ℕ × ℕ) := (init_neighbors ctx me).idx

/-- Source (receive) neighborhood of the `MPI_Dist_graph_create_adjacent`
call: the collected ranks with `this_node` appended at the end. -/
def source_neigh (ctx : Ctx) (me : ℕ) : List ℕ := (init_neighbors ctx me).src ++ [me]

/-- Destination (send) neighborhood of the graph communicator. -/
def dest_neigh (ctx : Ctx) (me : ℕ) : List ℕ := (init_neighbors ctx me).dst ++ [me]

/-- Collect the rank at one offset, skipping self, deduplicating. -/
def collectStep (ctx : Ctx) (me : ℕ) (s : List ℕ) (off : Fin 3 → ℤ) : List ℕ :=
  let r := neighRankAt ctx me off
  if r = me then s else push_back_unique s r

/-- Comparison definition for claim 5, following the spec-side description:
the distinct ranks among the upper corner offsets `{0,1}³` (self excluded). -/
def upperNeighbors (ctx : Ctx) (me : ℕ) : List ℕ :=
  (offsetList 0 1).foldl (collectStep ctx me) []

/-- Comparison definition for claim 5: distinct ranks among the lower corner
offsets `{-1,0}³` (self excluded). -/
def lowerNeighbors (ctx : Ctx) (me : ℕ) : List ℕ :=
  (offsetList (-1) 0).foldl (collectStep ctx me) []

/-- The λ vector obtained by `MPI_Neighbor_allgather` over `neighcomm`:
one entry per source neighbor, in source order. -/
def gathered_lambda (ctx : Ctx) (me : ℕ) (lam : ℕ → ℚ) : List ℚ :=
  (source_neigh ctx me).map lam

/-- Model of `bounding_box(r)` (gridbased.cpp): the 8 corner grid points of rank `r`,
mirrored over the periodic boundary where the owning rank wrapped. -/
def bounding_box (ctx : Ctx) (gps : List V3) (r : ℕ) : List V3 :=
  (offsetList 0 1).map (fun off =>
    let c := cartCoords ctx.dims r
    let nc : Fin 3 → ℤ := fun d => (c d : ℤ) - off d
    let mirror : Fin 3 → ℤ := fun d => if nc d < 0 then -1 else 0
    let ncw : Fin 3 → ℤ := fun d => if nc d < 0 then (ctx.dims d : ℤ) - 1 else nc d
    let q := cartRank ctx.dims ncw
    V3.ofFn (fun d => (gps.getD q (v3 0 0 0)).nth d + (mirror d : ℚ) * ctx.box_l.nth d))

/-- Linear scan of `neighbor_doms` in `position_to_rank`'s slow path. -/
def findOwner (ctx : Ctx) : List ℕ → List (List V3) → V3 → Option ℕ
  | r :: rs, dom :: doms, mp => if ctx.octContains dom mp then some r else findOwner ctx rs doms mp
  | _, _, _ => none

/-- Model of `position_to_rank` (gridbased.cpp): resolve through the midpoint of the
owning cell; fast path on the regular grid, octagon scan otherwise. -/
def position_to_rank (ctx : Ctx) (me : ℕ) (st : MState) (p : V3) : Except Err ℕ :=
  let mp := midpoint ctx (cell_at_pos ctx p)
  if st.is_regular_grid then .ok (ctx.fastRank mp)
  else if ctx.octContains st.my_dom mp then .ok me
  else
    match findOwner ctx (neighbor_ranks ctx me) st.neighbor_doms mp with
    | some r => .ok r
    | none => .error .OutOfNeighborhood

/-- Model of `gloidx_to_rank` (gridbased.cpp). -/
def gloidx_to_rank (ctx : Ctx) (me : ℕ) (st : MState) (g : ℕ) : Except Err ℕ :=
  position_to_rank ctx me st (midpoint ctx g)

/-- Model of `position_to_cell_index` with its debug-build checks, which the spec
treats as part of the design (`NotLocal` for ghost-layer queries). -/
def position_to_cell_index (ctx : Ctx) (me : ℕ) (st : MState) (p : V3) : Except Err ℕ :=
  match position_to_rank ctx me st p with
  | .error e => .error e
  | .ok r =>
    if r ≠ me then .error .NotInLocalBox
    else
      let i := (alookup (cell_at_pos ctx p) st.global_to_local).getD 0
      if st.nlocalcells ≤ i then .error .NotLocal else .ok i

/-- Model of `position_to_neighidx` (gridbased.cpp): `neighbor_idx[rank]`, where the
`operator[]` read of an absent key yields the default-inserted value 0. -/
def position_to_neighidx (ctx : Ctx) (me : ℕ) (st : MState) (p : V3) : Except Err ℕ :=
  match position_to_rank ctx me st p with
  | .error e => .error e
  | .ok r => .ok ((alookup r (neighbor_idx ctx me)).getD 0)

/-- The local-cell pass of `reinit`: all global cells, in ascending index
order, whose midpoint lies in `my_dom`. -/
def localCells (ctx : Ctx) (st : MState) : List ℕ :=
  (List.range (ncells ctx)).filter (fun g => ctx.octContains st.my_dom (midpoint ctx g))

/-- Accumulator of the ghost pass of `reinit`. -/
structure GhostAcc where
  cells : List ℕ
  g2l : List (ℕ × ℕ)
  nghost : ℕ
  ex : List ExDesc
deriving DecidableEq

/-- Update of one exchange descriptor: set `dest` if still `-1`, then
`push_back_unique` the ghost cell to `recv` and the local cell to `send`. -/
def exUpd (owner c g : ℕ) (e : ExDesc) : ExDesc :=
  { dest := if e.dest = -1 then (owner : ℤ) else e.dest,
    send := push_back_unique e.send c,
    recv := push_back_unique e.recv g }

/-- The pure part of one ghost-pass iteration, given the already resolved
owner of the neighbor cell `g` of local cell `c`. -/
def ghostUpd (nbidx : List (ℕ × ℕ)) (nloc me owner c g : ℕ) (acc : GhostAcc) : GhostAcc :=
  if owner = me then acc
  else
    let acc1 :=
      if (alookup g acc.g2l).isSome then acc
      else ⟨acc.cells ++ [g], acc.g2l ++ [(g, nloc + acc.nghost)], acc.nghost + 1, acc.ex⟩
    let idx := (alookup owner nbidx).getD 0
    ⟨acc1.cells, acc1.g2l, acc1.nghost, listModify acc1.ex idx (exUpd owner c g)⟩

/-- One ghost-pass iteration: resolve the owner (which may fail with
`OutOfNeighborhood`), then the pure update. -/
def ghostStep (ctx : Ctx) (me : ℕ) (st : MState) (nloc : ℕ) (acc : GhostAcc) (p : ℕ × ℕ) :
    Except Err GhostAcc :=
  match gloidx_to_rank ctx me st p.2 with
  | .error e => .error e
  | .ok owner => .ok (ghostUpd (neighbor_idx ctx me) nloc me owner p.1 p.2 acc)

/-- The ghost pass over the (local cell, shell neighbor) pairs in loop order. -/
def ghostLoop (ctx : Ctx) (me : ℕ) (st : MState) (nloc : ℕ) :
    List (ℕ × ℕ) → GhostAcc → Except Err GhostAcc
  | [], acc => .ok acc
  | p :: ps, acc =>
    match ghostStep ctx me st nloc acc p with
    | .error e => .error e
    | .ok acc1 => ghostLoop ctx me st nloc ps acc1

/-- The (local cell, shell neighbor) pairs visited by the ghost pass. -/
def ghostPairs (ctx : Ctx) (locs : List ℕ) : List (ℕ × ℕ) :=
  locs.flatMap (fun c => (full_shell_neigh_without_center ctx c).map (fun n => (c, n)))

/-- The invariant of the ghost pass: `global_to_local` enumerates `cells` in
order, `cells` has no duplicates, its length is `nloc + nghost`, and its
first `nloc` entries are the local cells. -/
def ghostInv (nloc : ℕ) (locs : List ℕ) (acc : GhostAcc) : Prop :=
  acc.g2l = enumAssocFrom 0 acc.cells ∧ acc.cells.Nodup ∧
    acc.cells.length = nloc + acc.nghost ∧ acc.cells.take nloc = locs

/-- Finalization of `reinit`: sort `recv` and `send` ascending by global
index, then translate in place through `global_to_local`. -/
def finalizeEx (g2l : List (ℕ × ℕ)) (ex : List ExDesc) : List ExDesc :=
  ex.map (fun e =>
    { dest := e.dest,
      send := (List.insertionSort (· ≤ ·) e.send).map (fun g => (alookup g g2l).getD 0),
      recv := (List.insertionSort (· ≤ ·) e.recv).map (fun g => (alookup g g2l).getD 0) })

/-- Model of `reinit` (gridbased.cpp): rebuild `cells`, `global_to_local`, the cell
counts and `exchange_vec` from the current octagons.  The debug assertion
`ENSURE(nlocalcells > 0)` is the fatal `EmptySubdomain` error of the spec. -/
def reinit (ctx : Ctx) (me : ℕ) (st : MState) : Except Err MState :=
  let locs := localCells ctx st
  let nloc := locs.length
  if nloc = 0 then .error .EmptySubdomain
  else
    let acc0 : GhostAcc :=
      ⟨locs, enumAssocFrom 0 locs, 0, List.replicate (neighbor_ranks ctx me).length ⟨-1, [], []⟩⟩
    match ghostLoop ctx me st nloc (ghostPairs ctx locs) acc0 with
    | .error e => .error e
    | .ok acc =>
      .ok { st with
              cells := acc.cells, global_to_local := acc.g2l,
              nlocalcells := nloc, nghostcells := acc.nghost,
              exchange_vec := finalizeEx acc.g2l acc.ex }

/-- Model of `norm2` squared: the sum of squared components (the model keeps the
external square root `ctx.sqrtQ` separate). -/
def sqNorm (v : V3) : ℚ := v.x * v.x + v.y * v.y + v.z * v.z

/-- Squared distance of two points; `dist2` of the source is
`ctx.sqrtQ` of this. -/
def sqDist (v w : V3) : ℚ := sqNorm ⟨v.x - w.x, v.y - w.y, v.z - w.z⟩

/-- The conflict count of one rank: pairs `(i, j)`, `i < j`, of bounding-box
corners with Euclidean distance `< 2 * min_cell_size`. -/
def countPairs (ctx : Ctx) : List V3 → ℕ
  | [] => 0
  | x :: xs =>
    xs.countP (fun y => decide (ctx.sqrtQ (sqDist x y) < 2 * minCellSize ctx)) + countPairs ctx xs

def conflictsFor (ctx : Ctx) (gps : List V3) (r : ℕ) : ℕ :=
  countPairs ctx (bounding_box ctx gps r)

/-- The `MPI_Allreduce(SUM)` of the per-rank conflict counts. -/
def totalConflicts (ctx : Ctx) (gps : List V3) : ℕ :=
  ((List.range (nNodes ctx)).map (conflictsFor ctx gps)).sum

/-- Model of `lnormalizer` of `repartition`: the mean of the gathered λ values, the
count being the in-degree of the graph communicator (`nneigh`). -/
def lnormalizer (ctx : Ctx) (me : ℕ) (lam : ℕ → ℚ) : ℚ :=
  (gathered_lambda ctx me lam).sum / ((source_neigh ctx me).length : ℚ)

/-- Model of `lambda_hat` of `repartition`: the gathered λ values divided by the
normalizer. -/
def lambdaHat (ctx : Ctx) (me : ℕ) (lam : ℕ → ℚ) : List ℚ :=
  (gathered_lambda ctx me lam).map (fun x => x / lnormalizer ctx me lam)

/-- The gathered centers of load, one per source neighbor, in source order. -/
def gatheredR (ctx : Ctx) (me : ℕ) (rv : ℕ → V3) : List V3 :=
  (source_neigh ctx me).map rv

/-- The flow term `f_i = (λ̂_i - 1) · u_i / ‖u_i‖` of `repartition`, per
component `d`. -/
def flowTerm (ctx : Ctx) (me : ℕ) (st : MState) (lam : ℕ → ℚ) (rv : ℕ → V3)
    (i : ℕ) (d : Fin 3) : ℚ :=
  ((lambdaHat ctx me lam).getD i 0 - 1) *
      (((gatheredR ctx me rv).getD i (v3 0 0 0)).nth d - st.gridpoint.nth d) /
    ctx.sqrtQ (sqDist ((gatheredR ctx me rv).getD i (v3 0 0 0)) st.gridpoint)

/-- The candidate corner computed by `repartition` on one rank: load-weighted
displacement, skipped on axes where the rank sits on the global upper
boundary.  `lam q` / `rv q` are rank `q`'s load sum and center of load
(the metric and the particle store are external inputs). -/
def newCorner (ctx : Ctx) (me : ℕ) (st : MState) (lam : ℕ → ℚ) (rv : ℕ → V3) : V3 :=
  V3.ofFn (fun d =>
    if cartCoords ctx.dims me d = ctx.dims d - 1 then st.gridpoint.nth d
    else st.gridpoint.nth d +
      ((List.range (source_neigh ctx me).length).map
        (fun i => st.mu * flowTerm ctx me st lam rv i d)).sum)

/-- The state of one rank right after an accepted gridpoint update:
`is_regular_grid = false` and `init_octagons` on the gathered corners. -/
def acceptState (ctx : Ctx) (newgps : List V3) (r : ℕ) (st : MState) : MState :=
  { st with
      gridpoint := newgps.getD r (v3 0 0 0),
      gridpoints := newgps,
      is_regular_grid := false,
      my_dom := bounding_box ctx newgps r,
      neighbor_doms := (neighbor_ranks ctx r).map (bounding_box ctx newgps) }

/-- The helper `mapME f l` is `l.mapM f` for the `Except` monad, written out so the
equations are directly usable in proofs. -/
def mapME (f : ℕ → Except Err MState) : List ℕ → Except Err (List MState)
  | [] => .ok []
  | x :: xs =>
    match f x with
    | .error e => .error e
    | .ok y =>
      match mapME f xs with
      | .error e => .error e
      | .ok ys => .ok (y :: ys)

/-- The candidate corners of all ranks (the all-gathered `gridpoints`). -/
def newGridpoints (ctx : Ctx) (lam : ℕ → ℚ) (rv : ℕ → V3) (sts : ℕ → MState) : List V3 :=
  (List.range (nNodes ctx)).map (fun q => newCorner ctx q (sts q) lam rv)

/-- Model of `repartition` (gridbased.cpp) as the SPMD collective it implements: all
ranks compute candidate corners, all-gather them, sum the conflict counts,
and either all roll back (`false`) or all commit and `reinit` (`true`).
On rejection each rank restores `gridpoints` and sets
`gridpoint = gridpoints[this_node]`. -/
def repartition (ctx : Ctx) (lam : ℕ → ℚ) (rv : ℕ → V3) (sts : ℕ → MState) :
    Except Err (Bool × List MState) :=
  let P := nNodes ctx
  let newgps := newGridpoints ctx lam rv sts
  if 0 < totalConflicts ctx newgps then
    .ok (false, (List.range P).map (fun r =>
      { sts r with gridpoint := ((sts r).gridpoints).getD r (v3 0 0 0) }))
  else
    match mapME (fun r => reinit ctx r (acceptState ctx newgps r (sts r))) (List.range P) with
    | .error e => .error e
    | .ok posts => .ok (true, posts)

/-- Model of `init_partitioning` (gridbased.cpp): the initial corner is `my_right`,
lowered by the absolute constant `1e-6` on axes not on the global upper
boundary. -/
def initGridpoint (ctx : Ctx) (r : ℕ) : V3 := V3.ofFn (fun d =>
  if (ctx.my_right r).nth d < ctx.box_l.nth d then (ctx.my_right r).nth d - mkRat 1 1000000
  else (ctx.my_right r).nth d)

/-- The per-rank states after `init_partitioning` + `init_octagons`,
before the constructor's `reinit`. -/
def initStates (ctx : Ctx) : List MState :=
  let gps := (List.range (nNodes ctx)).map (initGridpoint ctx)
  (List.range (nNodes ctx)).map (fun r =>
    { gridpoint := initGridpoint ctx r, gridpoints := gps, is_regular_grid := true,
      my_dom := bounding_box ctx gps r,
      neighbor_doms := (neighbor_ranks ctx r).map (bounding_box ctx gps),
      cells := [], global_to_local := [], nlocalcells := 0, nghostcells := 0,
      exchange_vec := [], mu := 1 })

/-- The `GridBasedGrid` constructor across all ranks:
`init_partitioning(); reinit();`. -/
def constructWorld (ctx : Ctx) : Except Err (List MState) :=
  mapME (fun r => reinit ctx r ((initStates ctx).getD r dfltM)) (List.range (nNodes ctx))

/-- Model of `\s` of ECMAScript: space, tab and the line/page control characters. -/
def isWsC (c : Char) : Bool :=
  c == ' ' || c == '\t' || c == '\n' || c == '\x0b' || c == '\x0c' || c == '\r'

def dropWs (l : List Char) : List Char := l.dropWhile isWsC

def allDigits (l : List Char) : Bool := l.all Char.isDigit

/-- ECMAScript `.`: any character except a line terminator. -/
def dotAny (c : Char) : Bool := !(c == '\n' || c == '\r' || c == '\u2028' || c == '\u2029')

/-- First alternative of the capture group, `\d+\.`, anchored at the end. -/
def alt1 (g : List Char) : Bool :=
  decide (2 ≤ g.length) && allDigits g.dropLast && (g.getLast? == some '.')

/-- Second alternative, `\.\d+`, anchored at the end. -/
def alt2 (g : List Char) : Bool :=
  match g with
  | '.' :: rest => !rest.isEmpty && allDigits rest
  | _ => false

/-- Third alternative as written in the source, `\d+.\d+` — the dot is NOT
escaped, so it is the ECMAScript any-character. -/
def alt3 (g : List Char) : Bool :=
  (List.range g.length).any (fun i =>
    decide (1 ≤ i) && decide (i + 1 < g.length) && allDigits (g.take i) &&
      dotAny (g.getD i ' ') && allDigits (g.drop (i + 1)))

/-- The capture group of the source regex, matched against the whole rest of
the string (`std::regex_match` anchors both ends). -/
def group_match (g : List Char) : Bool := alt1 g || alt2 g || alt3 g

/-- Full match of `\s*mu\s*=\s*(...)` against the whole string; returns the
captured group. -/
def muParse (s : List Char) : Option (List Char) :=
  match dropWs s with
  | 'm' :: 'u' :: r1 =>
    match dropWs r1 with
    | '=' :: r2 =>
      let g := dropWs r2
      if group_match g then some g else none
    | _ => none
  | _ => none

def digitVal (c : Char) : ℕ := c.toNat - '0'.toNat

/-- Parse a maximal run of decimal digits: value, digit count, rest. -/
def parseDigitsAux : List Char → ℕ → ℕ → ℕ × ℕ × List Char
  | [], acc, n => (acc, n, [])
  | c :: cs, acc, n =>
    if c.isDigit then parseDigitsAux cs (acc * 10 + digitVal c) (n + 1) else (acc, n, c :: cs)

/-- Exponent part of `strtod` (`e`/`E`, optional sign, digits). -/
def applyExp (m : ℚ) (rest : List Char) : ℚ :=
  let sr : ℤ × List Char :=
    match rest with
    | '+' :: t => (1, t)
    | '-' :: t => (-1, t)
    | _ => (1, rest)
  let pd := parseDigitsAux sr.2 0 0
  if pd.2.1 = 0 then m else m * (10 : ℚ) ^ (sr.1 * (pd.1 : ℤ))

/-- Model of `strtod` on the decimal forms reachable from the capture group: integer
part, optional fraction, optional exponent; parsing stops at the first
character that cannot extend the number. -/
def strtodQ (s : List Char) : ℚ :=
  let ip := parseDigitsAux s 0 0
  let fr : ℕ × ℕ × List Char :=
    match ip.2.2 with
    | '.' :: rest => parseDigitsAux rest 0 0
    | _ => (0, 0, ip.2.2)
  if ip.2.1 + fr.2.1 = 0 then 0
  else
    let mant : ℚ := (ip.1 : ℚ) + (fr.1 : ℚ) / ((10 : ℚ) ^ fr.2.1)
    match fr.2.2 with
    | 'e' :: rest => applyExp mant rest
    | 'E' :: rest => applyExp mant rest
    | _ => mant

/-- Model of `command` (gridbased.cpp): on a full regex match, `mu = strtod(group)`;
otherwise no state changes at all. -/
def command (s : List Char) (mu : ℚ) : ℚ :=
  match muParse s with
  | some g => strtodQ g
  | none => mu

/-- Comparison definition following the spec's words: the spec quotes the
regex with an ESCAPED dot in the third alternative, `\d+\.\d+`. -/
def spec_alt3 (g : List Char) : Bool :=
  (List.range g.length).any (fun i =>
    decide (1 ≤ i) && decide (i + 1 < g.length) && allDigits (g.take i) &&
      (g.getD i ' ' == '.') && allDigits (g.drop (i + 1)))

/-- Whether the spec's regex (escaped dot) fully matches the string. -/
def commandSpecMatches (s : List Char) : Bool :=
  match dropWs s with
  | 'm' :: 'u' :: r1 =>
    match dropWs r1 with
    | '=' :: r2 => alt1 (dropWs r2) || alt2 (dropWs r2) || spec_alt3 (dropWs r2)
    | _ => false
  | _ => false

def cmd1x5 : List Char := [ 'm', 'u', ' ', '=', ' ', '1', 'x', '5']

def cmd155 : List Char := [ 'm', 'u', ' ', '=', ' ', '1', '5', '5']

def cmd05 : List Char := [ 'm', 'u', ' ', '=', ' ', '0', '.', '5']

/-- Axis-aligned box containment instantiating the external `octContains`
for concrete worlds: corner 7 is the lower and corner 0 the upper corner of
the bounding box (matching the corner order of `bounding_box`); the spec's
contract (i) says the octagon agrees with the box in this situation. -/
def boxContains (corners : List V3) (p : V3) : Bool :=
  decide (∀ d : Fin 3,
    (corners.getD 7 (v3 0 0 0)).nth d < p.nth d ∧ p.nth d ≤ (corners.getD 0 (v3 0 0 0)).nth d)

/-- Closed-form regular-grid resolution instantiating `fastRank`. -/
def fastRankFor (dims : Fin 3 → ℕ) (box_l : V3) : V3 → ℕ := fun p =>
  cartRank dims (fun d => ⌊p.nth d * (dims d : ℚ) / box_l.nth d⌋)

/-- Concrete world: 2 ranks side by side on the x axis, one cell each. -/
def ctxW : Ctx :=
  { dims := vn3 2 1 1, box_l := v3 2 1 1, grid_size := vn3 2 1 1,
    my_right := fun r => if r = 0 then v3 1 1 1 else v3 2 1 1,
    fastRank := fastRankFor (vn3 2 1 1) (v3 2 1 1),
    octContains := boxContains, sqrtQ := fun x => x }

def lamW : ℕ → ℚ := fun _ => 1

def rvW : ℕ → V3 := fun r => if r = 0 then v3 (1 / 2) (1 / 2) (1 / 2) else v3 (3 / 2) (1 / 2) (1 / 2)

/-- Rank 0's state in `ctxW` after `init_partitioning` + `init_octagons`
(the value of `(initStates ctxW).getD 0 dfltM`, written out). -/
def preW0 : MState :=
  { gridpoint := v3 (mkRat 999999 1000000) 1 1,
    gridpoints := [v3 (mkRat 999999 1000000) 1 1, v3 2 1 1],
    is_regular_grid := true,
    my_dom := [v3 (mkRat 999999 1000000) 1 1, v3 (mkRat 999999 1000000) 1 0, v3 (mkRat 999999 1000000) 0 1,
      v3 (mkRat 999999 1000000) 0 0, v3 0 1 1, v3 0 1 0, v3 0 0 1, v3 0 0 0],
    neighbor_doms := [[v3 2 1 1, v3 2 1 0, v3 2 0 1, v3 2 0 0, v3 (mkRat 999999 1000000) 1 1,
      v3 (mkRat 999999 1000000) 1 0, v3 (mkRat 999999 1000000) 0 1, v3 (mkRat 999999 1000000) 0 0]],
    cells := [], global_to_local := [], nlocalcells := 0, nghostcells := 0,
    exchange_vec := [], mu := 1 }

/-- Rank 1's state in `ctxW` after `init_partitioning` + `init_octagons`. -/
def preW1 : MState :=
  { gridpoint := v3 2 1 1,
    gridpoints := [v3 (mkRat 999999 1000000) 1 1, v3 2 1 1],
    is_regular_grid := true,
    my_dom := [v3 2 1 1, v3 2 1 0, v3 2 0 1, v3 2 0 0, v3 (mkRat 999999 1000000) 1 1,
      v3 (mkRat 999999 1000000) 1 0, v3 (mkRat 999999 1000000) 0 1, v3 (mkRat 999999 1000000) 0 0],
    neighbor_doms := [[v3 (mkRat 999999 1000000) 1 1, v3 (mkRat 999999 1000000) 1 0, v3 (mkRat 999999 1000000) 0 1,
      v3 (mkRat 999999 1000000) 0 0, v3 0 1 1, v3 0 1 0, v3 0 0 1, v3 0 0 0]],
    cells := [], global_to_local := [], nlocalcells := 0, nghostcells := 0,
    exchange_vec := [], mu := 1 }

/-- Rank 0's state in `ctxW` after construction (`reinit` of `preW0`). -/
def postW0 : MState :=
  { preW0 with
    cells := [0, 1]
    global_to_local := [(0, 0), (1, 1)]
    nlocalcells := 1
    nghostcells := 1
    exchange_vec := [⟨1, [0], [1]⟩] }

/-- Rank 1's state in `ctxW` after construction (`reinit` of `preW1`). -/
def postW1 : MState :=
  { preW1 with
    cells := [1, 0]
    global_to_local := [(1, 0), (0, 1)]
    nlocalcells := 1
    nghostcells := 1
    exchange_vec := [⟨0, [0], [1]⟩] }

/-- A settled deformed state of rank 0: the regular-grid flag cleared and the
decomposition rebuilt through the octagon slow path, as left behind by an
earlier accepted repartition.  Fixpoint of `reinit ctxW 0`. -/
def defW0 : MState := { postW0 with is_regular_grid := false }

/-- The settled deformed state of rank 1. -/
def defW1 : MState := { postW1 with is_regular_grid := false }

def defWs : ℕ → MState := fun r => if r = 0 then defW0 else defW1

def posW : V3 := v3 (1 / 2) (1 / 2) (1 / 2)

/-- Concrete world scaled by 1000: cell size 1000 on every axis. -/
def ctxBig : Ctx :=
  { dims := vn3 2 1 1, box_l := v3 (mkRat 2000 1) (mkRat 1000 1) (mkRat 1000 1), grid_size := vn3 2 1 1,
    my_right := fun r => if r = 0 then v3 (mkRat 1000 1) (mkRat 1000 1) (mkRat 1000 1) else v3 (mkRat 2000 1) (mkRat 1000 1) (mkRat 1000 1),
    fastRank := fastRankFor (vn3 2 1 1) (v3 (mkRat 2000 1) (mkRat 1000 1) (mkRat 1000 1)),
    octContains := boxContains, sqrtQ := fun x => x }

/-- Rank 0's state in `ctxBig` after `init_partitioning` + `init_octagons`:
the bias on the interior x axis is the absolute `1e-6`, NOT scaled by the
cell size 1000. -/
def bigPre0 : MState :=
  { gridpoint := v3 (mkRat 999999999 1000000) (mkRat 1000 1) (mkRat 1000 1),
    gridpoints := [v3 (mkRat 999999999 1000000) (mkRat 1000 1) (mkRat 1000 1), v3 (mkRat 2000 1) (mkRat 1000 1) (mkRat 1000 1)],
    is_regular_grid := true,
    my_dom := [v3 (mkRat 999999999 1000000) (mkRat 1000 1) (mkRat 1000 1), v3 (mkRat 999999999 1000000) (mkRat 1000 1) 0,
      v3 (mkRat 999999999 1000000) 0 (mkRat 1000 1), v3 (mkRat 999999999 1000000) 0 0, v3 0 (mkRat 1000 1) (mkRat 1000 1),
      v3 0 (mkRat 1000 1) 0, v3 0 0 (mkRat 1000 1), v3 0 0 0],
    neighbor_doms := [[v3 (mkRat 2000 1) (mkRat 1000 1) (mkRat 1000 1), v3 (mkRat 2000 1) (mkRat 1000 1) 0, v3 (mkRat 2000 1) 0 (mkRat 1000 1), v3 (mkRat 2000 1) 0 0,
      v3 (mkRat 999999999 1000000) (mkRat 1000 1) (mkRat 1000 1), v3 (mkRat 999999999 1000000) (mkRat 1000 1) 0,
      v3 (mkRat 999999999 1000000) 0 (mkRat 1000 1), v3 (mkRat 999999999 1000000) 0 0]],
    cells := [], global_to_local := [], nlocalcells := 0, nghostcells := 0,
    exchange_vec := [], mu := 1 }

/-- Rank 1's state in `ctxBig` after `init_partitioning` + `init_octagons`. -/
def bigPre1 : MState :=
  { gridpoint := v3 (mkRat 2000 1) (mkRat 1000 1) (mkRat 1000 1),
    gridpoints := [v3 (mkRat 999999999 1000000) (mkRat 1000 1) (mkRat 1000 1), v3 (mkRat 2000 1) (mkRat 1000 1) (mkRat 1000 1)],
    is_regular_grid := true,
    my_dom := [v3 (mkRat 2000 1) (mkRat 1000 1) (mkRat 1000 1), v3 (mkRat 2000 1) (mkRat 1000 1) 0, v3 (mkRat 2000 1) 0 (mkRat 1000 1), v3 (mkRat 2000 1) 0 0,
      v3 (mkRat 999999999 1000000) (mkRat 1000 1) (mkRat 1000 1), v3 (mkRat 999999999 1000000) (mkRat 1000 1) 0,
      v3 (mkRat 999999999 1000000) 0 (mkRat 1000 1), v3 (mkRat 999999999 1000000) 0 0],
    neighbor_doms := [[v3 (mkRat 999999999 1000000) (mkRat 1000 1) (mkRat 1000 1), v3 (mkRat 999999999 1000000) (mkRat 1000 1) 0,
      v3 (mkRat 999999999 1000000) 0 (mkRat 1000 1), v3 (mkRat 999999999 1000000) 0 0, v3 0 (mkRat 1000 1) (mkRat 1000 1),
      v3 0 (mkRat 1000 1) 0, v3 0 0 (mkRat 1000 1), v3 0 0 0]],
    cells := [], global_to_local := [], nlocalcells := 0, nghostcells := 0,
    exchange_vec := [], mu := 1 }

/-- Rank 0's state in `ctxBig` after construction. -/
def big0 : MState :=
  { bigPre0 with
    cells := [0, 1]
    global_to_local := [(0, 0), (1, 1)]
    nlocalcells := 1
    nghostcells := 1
    exchange_vec := [⟨1, [0], [1]⟩] }

/-- Rank 1's state in `ctxBig` after construction. -/
def big1 : MState :=
  { bigPre1 with
    cells := [1, 0]
    global_to_local := [(1, 0), (0, 1)]
    nlocalcells := 1
    nghostcells := 1
    exchange_vec := [⟨0, [0], [1]⟩] }

/-- Concrete 3×3×3 process grid (27 ranks); rank 13 is interior. -/
def ctx333 : Ctx :=
  { dims := vn3 3 3 3, box_l := v3 3 3 3, grid_size := vn3 3 3 3,
    my_right := fun _ => v3 3 3 3,
    fastRank := fastRankFor (vn3 3 3 3) (v3 3 3 3),
    octContains := boxContains, sqrtQ := fun x => x }

theorem V3.nth_ofFn (f : Fin 3 → ℚ) (d : Fin 3) : (V3.ofFn f).nth d = f d := by
  fin_cases d <;> rfl

theorem V3.ofFn_nth (v : V3) : V3.ofFn v.nth = v := by
  cases v
  rfl

theorem alookup_enumAssocFrom_of_not_mem {x : ℕ} :
    ∀ {l : List ℕ} {i : ℕ}, x ∉ l → alookup x (enumAssocFrom i l) = none := by
  intro l
  induction l with
  | nil => intro i _; rfl
  | cons a as ih =>
    intro i hx
    have hxa : x ≠ a := fun h => hx (h ▸ List.mem_cons_self a as)
    have hxas : x ∉ as := fun h => hx (List.mem_cons_of_mem a h)
    simp [enumAssocFrom, alookup, hxa, ih hxas]

theorem alookup_enumAssocFrom_none_iff {x : ℕ} :
    ∀ {l : List ℕ} {i : ℕ}, alookup x (enumAssocFrom i l) = none ↔ x ∉ l := by
  intro l
  induction l with
  | nil => intro i; simp [enumAssocFrom, alookup]
  | cons a as ih =>
    intro i
    by_cases hxa : x = a
    · simp [enumAssocFrom, alookup, hxa]
    · simp [enumAssocFrom, alookup, hxa, ih]

theorem enumAssocFrom_append (a : ℕ) :
    ∀ (l : List ℕ) (i : ℕ), enumAssocFrom i (l ++ [a]) = enumAssocFrom i l ++ [(a, i + l.length)] := by
  intro l
  induction l with
  | nil => intro i; simp [enumAssocFrom]
  | cons b bs ih =>
    intro i
    have harith : i + 1 + bs.length = i + (bs.length + 1) := by omega
    simp only [List.cons_append, enumAssocFrom, List.append_eq, ih (i + 1), List.length_cons, harith]

theorem alookup_enumAssocFrom_get :
    ∀ (l : List ℕ) (i k : ℕ) (hk : k < l.length), l.Nodup →
      alookup l[k] (enumAssocFrom i l) = some (i + k) := by
  intro l
  induction l with
  | nil => intro i k hk; simp at hk
  | cons a as ih =>
    intro i k hk hnd
    cases k with
    | zero => simp [enumAssocFrom, alookup]
    | succ k' =>
      have hk' : k' < as.length := by simpa using hk
      have hmem : as[k'] ∈ as := List.getElem_mem hk'
      have hne : as[k'] ≠ a := fun h => (List.nodup_cons.mp hnd).1 (h ▸ hmem)
      have hih := ih (i + 1) k' hk' (List.nodup_cons.mp hnd).2
      have harith : i + 1 + k' = i + (k' + 1) := by omega
      simp only [List.getElem_cons_succ, enumAssocFrom, alookup, hne, if_false, hih, harith]

theorem map_snd_enumAssocFrom :
    ∀ (l : List ℕ) (i : ℕ), (enumAssocFrom i l).map Prod.snd = List.range' i l.length := by
  intro l
  induction l with
  | nil => intro i; rfl
  | cons a as ih => intro i; simp [enumAssocFrom, List.range', ih (i + 1)]

theorem mapME_ok_of {f : ℕ → Except Err MState} {g : ℕ → MState} :
    ∀ {l : List ℕ}, (∀ x ∈ l, f x = .ok (g x)) → mapME f l = .ok (l.map g) := by
  intro l
  induction l with
  | nil => intro _; rfl
  | cons a as ih =>
    intro h
    have ha := h a (List.mem_cons_self a as)
    have has := ih (fun x hx => h x (List.mem_cons_of_mem a hx))
    simp [mapME, ha, has]

theorem mapME_ok_forall {f : ℕ → Except Err MState} :
    ∀ {l : List ℕ} {ys : List MState}, mapME f l = .ok ys →
      ys.length = l.length ∧ ∀ k, k < l.length → f (l.getD k 0) = .ok (ys.getD k dfltM) := by
  intro l
  induction l with
  | nil =>
    intro ys h
    simp only [mapME] at h
    cases h
    exact ⟨rfl, by intro k hk; simp at hk⟩
  | cons a as ih =>
    intro ys h
    simp only [mapME] at h
    cases hfa : f a with
    | error e => rw [hfa] at h; cases h
    | ok y =>
      rw [hfa] at h
      cases hrest : mapME f as with
      | error e => rw [hrest] at h; cases h
      | ok ys' =>
        rw [hrest] at h
        cases h
        obtain ⟨hlen, hall⟩ := ih hrest
        refine ⟨by simp [hlen], ?_⟩
        intro k hk
        cases k with
        | zero => simpa using hfa
        | succ k' =>
          have : k' < as.length := by simpa using hk
          simpa using hall k' this

theorem ghostUpd_inv {nloc : ℕ} {locs : List ℕ} {acc : GhostAcc}
    (nb : List (ℕ × ℕ)) (me owner c g : ℕ) (hinv : ghostInv nloc locs acc) :
    ghostInv nloc locs (ghostUpd nb nloc me owner c g acc) := by
  obtain ⟨hg2l, hnd, hlen, htake⟩ := hinv
  unfold ghostUpd
  by_cases how : owner = me
  · simpa [how] using ⟨hg2l, hnd, hlen, htake⟩
  · simp only [how, if_false]
    by_cases hl : (alookup g acc.g2l).isSome
    · simp only [hl, if_true]
      exact ⟨hg2l, hnd, hlen, htake⟩
    · have hnone : alookup g acc.g2l = none := by
        cases hopt : alookup g acc.g2l
        · rfl
        · rw [hopt] at hl; simp at hl
      have hnotmem : g ∉ acc.cells := by
        rw [hg2l] at hnone
        exact alookup_enumAssocFrom_none_iff.mp hnone
      simp only [hl, Bool.false_eq_true, if_false]
      refine ⟨?_, ?_, ?_, ?_⟩
      · rw [hg2l, enumAssocFrom_append]
        have : 0 + acc.cells.length = nloc + acc.nghost := by omega
        rw [this]
      · rw [← List.concat_eq_append]
        exact List.Nodup.concat hnotmem hnd
      · simp [hlen]
        omega
      · have hle : nloc ≤ acc.cells.length := by omega
        rw [List.take_append_of_le_length hle, htake]

theorem ghostLoop_inv {ctx : Ctx} {me : ℕ} {st : MState} {nloc : ℕ} {locs : List ℕ} :
    ∀ (ps : List (ℕ × ℕ)) (acc acc2 : GhostAcc),
      ghostLoop ctx me st nloc ps acc = .ok acc2 → ghostInv nloc locs acc →
        ghostInv nloc locs acc2 := by
  intro ps
  induction ps with
  | nil =>
    intro acc acc2 h hinv
    simp only [ghostLoop] at h
    cases h
    exact hinv
  | cons p ps ih =>
    intro acc acc2 h hinv
    simp only [ghostLoop] at h
    cases hstep : ghostStep ctx me st nloc acc p with
    | error e => rw [hstep] at h; cases h
    | ok acc1 =>
      rw [hstep] at h
      have hupd : ghostInv nloc locs acc1 := by
        unfold ghostStep at hstep
        cases hown : gloidx_to_rank ctx me st p.2 with
        | error e => rw [hown] at hstep; cases hstep
        | ok owner =>
          rw [hown] at hstep
          cases hstep
          exact ghostUpd_inv _ me owner p.1 p.2 hinv
      exact ih acc1 acc2 h hupd

theorem reinit_ok_inv {ctx : Ctx} {me : ℕ} {st st' : MState}
    (h : reinit ctx me st = .ok st') :
    ∃ acc : GhostAcc,
      ghostLoop ctx me st (localCells ctx st).length (ghostPairs ctx (localCells ctx st))
          ⟨localCells ctx st, enumAssocFrom 0 (localCells ctx st), 0,
            List.replicate (neighbor_ranks ctx me).length ⟨-1, [], []⟩⟩ = .ok acc ∧
        (localCells ctx st).length ≠ 0 ∧
        st' = { st with
                  cells := acc.cells, global_to_local := acc.g2l,
                  nlocalcells := (localCells ctx st).length, nghostcells := acc.nghost,
                  exchange_vec := finalizeEx acc.g2l acc.ex } := by
  simp only [reinit] at h
  by_cases hz : (localCells ctx st).length = 0
  · rw [if_pos hz] at h
    cases h
  · rw [if_neg hz] at h
    cases hloop : ghostLoop ctx me st (localCells ctx st).length
        (ghostPairs ctx (localCells ctx st))
        ⟨localCells ctx st, enumAssocFrom 0 (localCells ctx st), 0,
          List.replicate (neighbor_ranks ctx me).length ⟨-1, [], []⟩⟩ with
    | error e => rw [hloop] at h; cases h
    | ok acc =>
      rw [hloop] at h
      cases h
      exact ⟨acc, rfl, hz, rfl⟩

theorem reinit_error_of_empty {ctx : Ctx} {me : ℕ} {st : MState}
    (h : localCells ctx st = []) : reinit ctx me st = .error .EmptySubdomain := by
  simp only [reinit]
  rw [if_pos (by rw [h]; rfl)]

theorem reinit_preserves {ctx : Ctx} {me : ℕ} {st st' : MState}
    (h : reinit ctx me st = .ok st') :
    st'.gridpoint = st.gridpoint ∧ st'.gridpoints = st.gridpoints ∧
      st'.is_regular_grid = st.is_regular_grid ∧ st'.my_dom = st.my_dom ∧
      st'.neighbor_doms = st.neighbor_doms ∧ st'.mu = st.mu := by
  obtain ⟨acc, _, _, hst⟩ := reinit_ok_inv h
  subst hst
  exact ⟨rfl, rfl, rfl, rfl, rfl, rfl⟩

/-- Claim C2: after construction and after every accepted repartition — both
end in `reinit` — `global_to_local` is a bijection from the entries of the
`cells` vector onto `[0, Nlocal + Nghost)`: the local cells (the cells whose
midpoint `my_dom` contains, visited in ascending global index) occupy the
first `Nlocal` slots and map to `[0, Nlocal)`, the ghost cells follow and map
to `[Nlocal, Nlocal + Nghost)`, and `Nlocal = 0` is the fatal
`EmptySubdomain` error. -/
theorem claim2_global_to_local_bijection (ctx : Ctx) (me : ℕ) (st : MState) :
    (localCells ctx st = [] → reinit ctx me st = .error .EmptySubdomain) ∧
    ∀ st', reinit ctx me st = .ok st' →
      0 < st'.nlocalcells ∧
      st'.cells.take st'.nlocalcells = localCells ctx st ∧
      List.Sorted (· < ·) (localCells ctx st) ∧
      st'.cells.length = st'.nlocalcells + st'.nghostcells ∧
      st'.cells.Nodup ∧
      st'.global_to_local = enumAssocFrom 0 st'.cells ∧
      st'.global_to_local.map Prod.snd = List.range (st'.nlocalcells + st'.nghostcells) ∧
      ∀ k (hk : k < st'.cells.length), alookup st'.cells[k] st'.global_to_local = some k := by
  constructor
  · exact fun h => reinit_error_of_empty h
  · intro st' h
    obtain ⟨acc, hloop, hz, hst⟩ := reinit_ok_inv h
    have hinv0 : ghostInv (localCells ctx st).length (localCells ctx st)
        ⟨localCells ctx st, enumAssocFrom 0 (localCells ctx st), 0,
          List.replicate (neighbor_ranks ctx me).length ⟨-1, [], []⟩⟩ := by
      refine ⟨rfl, List.Nodup.filter _ (List.nodup_range _), by simp, List.take_length _⟩
    have hinv := ghostLoop_inv _ _ _ hloop hinv0
    obtain ⟨hg2l, hnd, hlen, htake⟩ := hinv
    subst hst
    refine ⟨Nat.pos_of_ne_zero hz, htake, ?_, hlen, hnd, hg2l, ?_, ?_⟩
    · exact List.Pairwise.filter _ (List.pairwise_lt_range _)
    · rw [hg2l, map_snd_enumAssocFrom, hlen, List.range_eq_range']
    · intro k hk
      rw [hg2l]
      simpa using alookup_enumAssocFrom_get acc.cells 0 k hk hnd

/-- Witness for claim C2: the theorem applied to rank 0 of the concrete
two-rank world, with `reinit preW0 = ok postW0` evaluated. -/
theorem claim2_witness :
    0 < postW0.nlocalcells ∧
    postW0.cells.take postW0.nlocalcells = localCells ctxW preW0 ∧
    postW0.cells.length = postW0.nlocalcells + postW0.nghostcells ∧
    postW0.global_to_local = enumAssocFrom 0 postW0.cells ∧
    postW0.global_to_local.map Prod.snd =
      List.range (postW0.nlocalcells + postW0.nghostcells) := by
  have h := (claim2_global_to_local_bijection ctxW 0 preW0).2 postW0 (by decide!)
  exact ⟨h.1, h.2.1, h.2.2.2.1, h.2.2.2.2.2.1, h.2.2.2.2.2.2.1⟩

/-- Claim C7: `reinit` is deterministic — two calls on equal GridStates give
identical results, in particular identical exchange descriptors — and in
every descriptor the `send` and `recv` lists are sorted ascending by global
cell index before being translated in place to local indices through
`global_to_local`. -/
theorem claim7_exchange_deterministic_sorted (ctx : Ctx) (me : ℕ) (st₁ st₂ : MState)
    (heq : st₁ = st₂) :
    reinit ctx me st₁ = reinit ctx me st₂ ∧
    ∀ st', reinit ctx me st₁ = .ok st' →
      ∀ e ∈ st'.exchange_vec, ∃ rg sg : List ℕ,
        List.Sorted (· ≤ ·) rg ∧ List.Sorted (· ≤ ·) sg ∧
        e.recv = rg.map (fun g => (alookup g st'.global_to_local).getD 0) ∧
        e.send = sg.map (fun g => (alookup g st'.global_to_local).getD 0) := by
  subst heq
  refine ⟨rfl, ?_⟩
  intro st' h e he
  obtain ⟨acc, hloop, hz, hst⟩ := reinit_ok_inv h
  subst hst
  simp only [finalizeEx, List.mem_map] at he
  obtain ⟨e0, _, rfl⟩ := he
  exact ⟨List.insertionSort (· ≤ ·) e0.recv, List.insertionSort (· ≤ ·) e0.send,
    List.sorted_insertionSort _ _, List.sorted_insertionSort _ _, rfl, rfl⟩

/-- Witness for claim C7 at the concrete world: two identical `reinit` calls
agree, and the (evaluated) exchange descriptor of rank 0 is in sorted
translated form. -/
theorem claim7_witness :
    reinit ctxW 0 preW0 = reinit ctxW 0 preW0 ∧
    ∀ e ∈ postW0.exchange_vec, ∃ rg sg : List ℕ,
      List.Sorted (· ≤ ·) rg ∧ List.Sorted (· ≤ ·) sg ∧
      e.recv = rg.map (fun g => (alookup g postW0.global_to_local).getD 0) ∧
      e.send = sg.map (fun g => (alookup g postW0.global_to_local).getD 0) :=
  ⟨(claim7_exchange_deterministic_sorted ctxW 0 preW0 preW0 rfl).1,
    (claim7_exchange_deterministic_sorted ctxW 0 preW0 preW0 rfl).2 postW0 (by decide!)⟩

/-- Claim C8: for every position `p` that `position_to_rank` resolves to the
calling rank itself, `position_to_cell_index` returns
`global_to_local[cell_at_pos p]`; it fails with `NotLocal` exactly when that
index is ≥ `Nlocal` (a ghost-layer position queried as local), and on
success the returned index is < `Nlocal`. -/
theorem claim8_position_to_cell_index (ctx : Ctx) (me : ℕ) (st : MState) (p : V3)
    (h : position_to_rank ctx me st p = .ok me) :
    position_to_cell_index ctx me st p =
      (if st.nlocalcells ≤ (alookup (cell_at_pos ctx p) st.global_to_local).getD 0
       then .error Err.NotLocal
       else .ok ((alookup (cell_at_pos ctx p) st.global_to_local).getD 0)) ∧
    ∀ j, position_to_cell_index ctx me st p = .ok j →
      j = (alookup (cell_at_pos ctx p) st.global_to_local).getD 0 ∧ j < st.nlocalcells := by
  have h1 : position_to_cell_index ctx me st p =
      (if st.nlocalcells ≤ (alookup (cell_at_pos ctx p) st.global_to_local).getD 0
       then .error Err.NotLocal
       else .ok ((alookup (cell_at_pos ctx p) st.global_to_local).getD 0)) := by
    unfold position_to_cell_index
    rw [h]
    simp
  refine ⟨h1, ?_⟩
  intro j hj
  rw [h1] at hj
  by_cases hle : st.nlocalcells ≤ (alookup (cell_at_pos ctx p) st.global_to_local).getD 0
  · rw [if_pos hle] at hj
    cases hj
  · rw [if_neg hle] at hj
    cases hj
    exact ⟨rfl, by omega⟩

/-- Witness for claim C8: at the concrete world, the position `posW` resolves
to rank 0 itself and `position_to_cell_index` returns local index 0. -/
theorem claim8_witness :
    position_to_cell_index ctxW 0 postW0 posW =
      (if postW0.nlocalcells ≤ (alookup (cell_at_pos ctxW posW) postW0.global_to_local).getD 0
       then .error Err.NotLocal
       else .ok ((alookup (cell_at_pos ctxW posW) postW0.global_to_local).getD 0)) ∧
    ∀ j, position_to_cell_index ctxW 0 postW0 posW = .ok j →
      j = (alookup (cell_at_pos ctxW posW) postW0.global_to_local).getD 0 ∧
        j < postW0.nlocalcells :=
  claim8_position_to_cell_index ctxW 0 postW0 posW (by decide!)

theorem neighAccStep_ranks_idx (ctx : Ctx) (me : ℕ) (acc : NeighAcc) (off : Fin 3 → ℤ) :
    ((neighAccStep ctx me acc off).ranks = acc.ranks ∧
      (neighAccStep ctx me acc off).idx = acc.idx) ∨
    (∃ r, r ≠ me ∧
      (neighAccStep ctx me acc off).ranks = acc.ranks ++ [r] ∧
      (neighAccStep ctx me acc off).idx = acc.idx ++ [(r, acc.ranks.length)]) := by
  simp only [neighAccStep]
  by_cases h1 : neighRankAt ctx me off = me
  · simp [h1]
  · by_cases h2 : (alookup (neighRankAt ctx me off) acc.idx).isSome
    · left
      by_cases h3 : pUp off = true <;> by_cases h4 : pDn off = true <;>
        simp [h1, h2, h3, h4]
    · right
      refine ⟨neighRankAt ctx me off, h1, ?_, ?_⟩ <;>
        (by_cases h3 : pUp off = true <;> by_cases h4 : pDn off = true <;>
          simp [h1, h2, h3, h4])

theorem neighFold_ranks_idx (ctx : Ctx) (me : ℕ) :
    ∀ (l : List (Fin 3 → ℤ)) (acc : NeighAcc),
      acc.idx = enumAssocFrom 0 acc.ranks → me ∉ acc.ranks →
      (l.foldl (neighAccStep ctx me) acc).idx =
          enumAssocFrom 0 (l.foldl (neighAccStep ctx me) acc).ranks ∧
        me ∉ (l.foldl (neighAccStep ctx me) acc).ranks := by
  intro l
  induction l with
  | nil => intro acc h1 h2; exact ⟨h1, h2⟩
  | cons off l ih =>
    intro acc h1 h2
    simp only [List.foldl_cons]
    rcases neighAccStep_ranks_idx ctx me acc off with ⟨hr, hi⟩ | ⟨r, hrne, hr, hi⟩
    · exact ih _ (by rw [hi, hr, h1]) (by rw [hr]; exact h2)
    · apply ih
      · rw [hi, hr, h1, enumAssocFrom_append]
        simp
      · rw [hr]
        intro hmem
        rcases List.mem_append.mp hmem with hmem | hmem
        · exact h2 hmem
        · simp at hmem
          exact hrne hmem.symm

theorem init_neighbors_idx_enum (ctx : Ctx) (me : ℕ) :
    neighbor_idx ctx me = enumAssocFrom 0 (neighbor_ranks ctx me) ∧
      me ∉ neighbor_ranks ctx me := by
  unfold neighbor_idx neighbor_ranks init_neighbors
  exact neighFold_ranks_idx ctx me _ _ rfl (by simp)

/-- Claim C10: for a position that `position_to_rank` resolves to the calling
rank itself, `position_to_neighidx` does not fail: the self rank is absent
from `neighbor_idx`, the `operator[]` read of the absent key produces the
default-inserted value 0, and 0 is also exactly the index assigned to the
first neighbor rank — the two cases are indistinguishable. -/
theorem claim10_position_to_neighidx_self (ctx : Ctx) (me : ℕ) (st : MState) (p : V3)
    (h : position_to_rank ctx me st p = .ok me) :
    position_to_neighidx ctx me st p = .ok 0 ∧
    alookup me (neighbor_idx ctx me) = none ∧
    (neighbor_ranks ctx me ≠ [] →
      alookup ((neighbor_ranks ctx me).headD 0) (neighbor_idx ctx me) = some 0) := by
  obtain ⟨hidx, hnotmem⟩ := init_neighbors_idx_enum ctx me
  have hnone : alookup me (neighbor_idx ctx me) = none := by
    rw [hidx]
    exact alookup_enumAssocFrom_of_not_mem hnotmem
  refine ⟨?_, hnone, ?_⟩
  · unfold position_to_neighidx
    rw [h]
    simp only [hnone]
    rfl
  · intro hne
    cases hranks : neighbor_ranks ctx me with
    | nil => exact absurd hranks hne
    | cons a t =>
      rw [hidx, hranks]
      simp [enumAssocFrom, alookup]

/-- Witness for claim C10: at the concrete world, `posW` resolves to rank 0
itself and `position_to_neighidx` returns 0, the index of the first (and
only) neighbor rank. -/
theorem claim10_witness :
    position_to_neighidx ctxW 0 postW0 posW = .ok 0 ∧
    alookup 0 (neighbor_idx ctxW 0) = none ∧
    (neighbor_ranks ctxW 0 ≠ [] →
      alookup ((neighbor_ranks ctxW 0).headD 0) (neighbor_idx ctxW 0) = some 0) :=
  claim10_position_to_neighidx_self ctxW 0 postW0 posW (by decide!)

theorem neighAccStep_src (ctx : Ctx) (me : ℕ) (acc : NeighAcc) (off : Fin 3 → ℤ) :
    (neighAccStep ctx me acc off).src =
      (if pUp off = true then collectStep ctx me acc.src off else acc.src) := by
  simp only [neighAccStep, collectStep]
  by_cases h1 : neighRankAt ctx me off = me
  · by_cases h3 : pUp off = true <;> simp [h1, h3]
  · by_cases h2 : (alookup (neighRankAt ctx me off) acc.idx).isSome <;>
      by_cases h3 : pUp off = true <;> by_cases h4 : pDn off = true <;>
        simp [h1, h2, h3, h4]

theorem neighAccStep_dst (ctx : Ctx) (me : ℕ) (acc : NeighAcc) (off : Fin 3 → ℤ) :
    (neighAccStep ctx me acc off).dst =
      (if pDn off = true then collectStep ctx me acc.dst off else acc.dst) := by
  simp only [neighAccStep, collectStep]
  by_cases h1 : neighRankAt ctx me off = me
  · by_cases h4 : pDn off = true <;> simp [h1, h4]
  · by_cases h2 : (alookup (neighRankAt ctx me off) acc.idx).isSome <;>
      by_cases h3 : pUp off = true <;> by_cases h4 : pDn off = true <;>
        simp [h1, h2, h3, h4]

theorem neighFold_src (ctx : Ctx) (me : ℕ) :
    ∀ (l : List (Fin 3 → ℤ)) (acc : NeighAcc),
      (l.foldl (neighAccStep ctx me) acc).src =
        l.foldl (fun s off => if pUp off = true then collectStep ctx me s off else s) acc.src := by
  intro l
  induction l with
  | nil => intro acc; rfl
  | cons off l ih =>
    intro acc
    simp only [List.foldl_cons, ih, neighAccStep_src]

theorem neighFold_dst (ctx : Ctx) (me : ℕ) :
    ∀ (l : List (Fin 3 → ℤ)) (acc : NeighAcc),
      (l.foldl (neighAccStep ctx me) acc).dst =
        l.foldl (fun s off => if pDn off = true then collectStep ctx me s off else s) acc.dst := by
  intro l
  induction l with
  | nil => intro acc; rfl
  | cons off l ih =>
    intro acc
    simp only [List.foldl_cons, ih, neighAccStep_dst]

theorem foldl_guard_filter {α β : Type} (p : α → Bool) (g : β → α → β) :
    ∀ (l : List α) (s : β),
      l.foldl (fun s x => if p x = true then g s x else s) s = (l.filter p).foldl g s := by
  intro l
  induction l with
  | nil => intro s; rfl
  | cons a t ih =>
    intro s
    by_cases h : p a = true <;> simp [List.filter_cons, h, ih]

theorem offsets_filter_pUp : (offsetList (-1) 1).filter pUp = offsetList 0 1 := by decide!

theorem offsets_filter_pDn : (offsetList (-1) 1).filter pDn = offsetList (-1) 0 := by decide!

theorem source_neigh_eq (ctx : Ctx) (me : ℕ) :
    source_neigh ctx me = upperNeighbors ctx me ++ [me] := by
  unfold source_neigh upperNeighbors init_neighbors
  rw [neighFold_src, foldl_guard_filter, offsets_filter_pUp]

theorem dest_neigh_eq (ctx : Ctx) (me : ℕ) :
    dest_neigh ctx me = lowerNeighbors ctx me ++ [me] := by
  unfold dest_neigh lowerNeighbors init_neighbors
  rw [neighFold_dst, foldl_guard_filter, offsets_filter_pDn]

/-- Claim C5, amended: the distributed graph communicator is NOT built from
the 26-neighborhood and it DOES contain a self-edge.  Its source (receive)
neighborhood is the deduplicated ranks of the 7 "upper" Cartesian offsets in
`{0,1}³` with the rank itself appended; the destination neighborhood
likewise with the 7 "lower" offsets in `{-1,0}³`; consequently the gathered
λ vector ranges over the upper-offset neighbors AND the calling rank itself,
and the normalizer `Σ λ_i / nneigh` includes the caller's own load. -/
theorem claim5_amended_graph_neighborhoods (ctx : Ctx) (me : ℕ) (lam : ℕ → ℚ) :
    source_neigh ctx me = upperNeighbors ctx me ++ [me] ∧
    dest_neigh ctx me = lowerNeighbors ctx me ++ [me] ∧
    me ∈ source_neigh ctx me ∧
    gathered_lambda ctx me lam = (upperNeighbors ctx me).map lam ++ [lam me] := by
  refine ⟨source_neigh_eq ctx me, dest_neigh_eq ctx me, ?_, ?_⟩
  · rw [source_neigh_eq]
    simp
  · unfold gathered_lambda
    rw [source_neigh_eq]
    simp

/-- Counterexample for claim C5 as stated: in a 3×3×3 process grid, the
interior rank 13 has 26 distinct Cartesian neighbors, but the source
neighborhood of the graph communicator has only 8 entries (7 upper corner
neighbors plus rank 13 itself); the self rank IS an edge, and with a load
vector that is 1 on rank 13 and 0 elsewhere, the gathered λ vector contains
the caller's own load. -/
theorem claim5_counterexample :
    source_neigh ctx333 13 ≠ neighbor_ranks ctx333 13 ∧
    (neighbor_ranks ctx333 13).length = 26 ∧
    (source_neigh ctx333 13).length = 8 ∧
    (13 : ℕ) ∈ source_neigh ctx333 13 ∧
    (1 : ℚ) ∈ gathered_lambda ctx333 13 (fun q => if q = 13 then 1 else 0) := by
  decide!

theorem getD_map_range {α : Type} (f : ℕ → α) (d : α) {n r : ℕ} (h : r < n) :
    ((List.range n).map f).getD r d = f r := by
  rw [List.getD_eq_getElem?_getD, List.getElem?_map, List.getElem?_range h]
  rfl

theorem getD_range {n r : ℕ} (h : r < n) : (List.range n).getD r 0 = r := by
  rw [List.getD_eq_getElem?_getD, List.getElem?_range h]
  rfl

theorem mstate_set_gridpoint_self (s : MState) (v : V3) (h : v = s.gridpoint) :
    { s with gridpoint := v } = s := by
  subst h
  rfl

/-- Claim C1: `repartition` returns false exactly when the SUM-all-reduced
count of bounding-box corner pairs at Euclidean distance `< 2·min_cell_size`
is positive, and on a rejected step every rank's state — `gridpoint`,
`gridpoints`, `cells`, `global_to_local`, `exchange_vec`, `Nlocal`,
`Nghost`, `is_regular_grid` (indeed every field) — equals its pre-call
value.  The hypothesis is the replication invariant that the all-gather
maintains: each rank's slot of `gridpoints` holds its own `gridpoint`. -/
theorem claim1_reject_iff_conflicts_rollback (ctx : Ctx) (lam : ℕ → ℚ) (rv : ℕ → V3)
    (sts : ℕ → MState)
    (hcons : ∀ r, r < nNodes ctx → ((sts r).gridpoints).getD r (v3 0 0 0) = (sts r).gridpoint) :
    (0 < totalConflicts ctx (newGridpoints ctx lam rv sts) →
      repartition ctx lam rv sts = .ok (false, (List.range (nNodes ctx)).map sts)) ∧
    (totalConflicts ctx (newGridpoints ctx lam rv sts) = 0 →
      ∀ res posts, repartition ctx lam rv sts = .ok (res, posts) → res = true) := by
  constructor
  · intro htot
    simp only [repartition]
    rw [if_pos htot]
    have hmap : (List.range (nNodes ctx)).map
        (fun r => { sts r with gridpoint := ((sts r).gridpoints).getD r (v3 0 0 0) }) =
        (List.range (nNodes ctx)).map sts := by
      apply List.map_congr_left
      intro r hr
      exact mstate_set_gridpoint_self (sts r) _ (hcons r (List.mem_range.mp hr))
    rw [hmap]
  · intro htot res posts h
    simp only [repartition] at h
    rw [if_neg (by omega)] at h
    cases hm : mapME
        (fun r => reinit ctx r (acceptState ctx (newGridpoints ctx lam rv sts) r (sts r)))
        (List.range (nNodes ctx)) with
    | error e => rw [hm] at h; cases h
    | ok posts' =>
      rw [hm] at h
      cases h
      rfl

/-- Witness for claim C1: the concrete two-rank deformed world has a
positive conflict count (corners one cell apart, `2·min_cell_size = 2`), so
`repartition` returns false and every rank's state is exactly its pre-call
value. -/
theorem claim1_witness :
    repartition ctxW lamW rvW defWs = .ok (false, (List.range (nNodes ctxW)).map defWs) ∧
    0 < totalConflicts ctxW (newGridpoints ctxW lamW rvW defWs) :=
  ⟨(claim1_reject_iff_conflicts_rollback ctxW lamW rvW defWs (by decide!)).1 (by decide!),
    by decide!⟩

/-- Claim C3: on every axis `d` where the calling rank sits on the global
upper boundary of the process grid (`coords[d] = dims[d] - 1`), the rank's
grid-point coordinate is unchanged by `repartition` — the candidate corner
already equals the old corner on that axis — whether or not the new
partition is accepted. -/
theorem claim3_boundary_axis_pinned (ctx : Ctx) (lam : ℕ → ℚ) (rv : ℕ → V3)
    (sts : ℕ → MState) (r : ℕ) (d : Fin 3)
    (hr : r < nNodes ctx)
    (hpin : cartCoords ctx.dims r d = ctx.dims d - 1)
    (hcons : ((sts r).gridpoints).getD r (v3 0 0 0) = (sts r).gridpoint) :
    (newCorner ctx r (sts r) lam rv).nth d = (sts r).gridpoint.nth d ∧
    ∀ res posts, repartition ctx lam rv sts = .ok (res, posts) →
      (posts.getD r dfltM).gridpoint.nth d = (sts r).gridpoint.nth d := by
  have hnc : (newCorner ctx r (sts r) lam rv).nth d = (sts r).gridpoint.nth d := by
    simp only [newCorner]
    rw [V3.nth_ofFn, if_pos hpin]
  refine ⟨hnc, ?_⟩
  intro res posts h
  simp only [repartition] at h
  by_cases htot : 0 < totalConflicts ctx (newGridpoints ctx lam rv sts)
  · rw [if_pos htot] at h
    cases h
    rw [getD_map_range _ _ hr]
    show (((sts r).gridpoints).getD r (v3 0 0 0)).nth d = (sts r).gridpoint.nth d
    rw [hcons]
  · rw [if_neg htot] at h
    cases hm : mapME
        (fun q => reinit ctx q (acceptState ctx (newGridpoints ctx lam rv sts) q (sts q)))
        (List.range (nNodes ctx)) with
    | error e => rw [hm] at h; cases h
    | ok posts' =>
      rw [hm] at h
      cases h
      obtain ⟨hlen, hall⟩ := mapME_ok_forall hm
      have hf := hall r (by simpa using hr)
      rw [getD_range hr] at hf
      obtain ⟨hgp, _⟩ := reinit_preserves hf
      rw [hgp]
      show ((newGridpoints ctx lam rv sts).getD r (v3 0 0 0)).nth d = (sts r).gridpoint.nth d
      unfold newGridpoints
      rw [getD_map_range _ _ hr]
      exact hnc

/-- Witness for claim C3: rank 1 of the concrete world sits on the upper
boundary of the x axis; its corner's x coordinate is unchanged by the
(rejected) repartition. -/
theorem claim3_witness :
    (newCorner ctxW 1 (defWs 1) lamW rvW).nth 0 = (defWs 1).gridpoint.nth 0 ∧
    (([defW0, defW1].getD 1 dfltM).gridpoint.nth 0 = (defWs 1).gridpoint.nth 0) := by
  have h := claim3_boundary_axis_pinned ctxW lamW rvW defWs 1 0 (by decide!) (by decide!)
    (by decide!)
  exact ⟨h.1, h.2 false [defW0, defW1] (by decide!)⟩

/-- Claim C6, amended: at construction every rank's grid point equals
`my_right`, reduced by the ABSOLUTE constant `1e-6` — independent of the
cell size — exactly on the axes where `my_right[d] < L[d]`; on
global-upper-boundary axes no bias is applied. -/
theorem claim6_initial_gridpoint_bias (ctx : Ctx) (sts : List MState)
    (h : constructWorld ctx = .ok sts) :
    ∀ r, r < nNodes ctx → ∀ d : Fin 3,
      (sts.getD r dfltM).gridpoint.nth d =
        (if (ctx.my_right r).nth d < ctx.box_l.nth d
         then (ctx.my_right r).nth d - mkRat 1 1000000
         else (ctx.my_right r).nth d) := by
  intro r hr d
  unfold constructWorld at h
  obtain ⟨hlen, hall⟩ := mapME_ok_forall h
  have hf := hall r (by simpa using hr)
  rw [getD_range hr] at hf
  obtain ⟨hgp, _⟩ := reinit_preserves hf
  rw [hgp]
  simp only [initStates]
  rw [getD_map_range _ _ hr]
  show (initGridpoint ctx r).nth d = _
  simp only [initGridpoint]
  rw [V3.nth_ofFn]

/-- Witness for claim C6: construction of the scaled world evaluates, and
rank 0's x coordinate carries the interior bias. -/
theorem claim6_witness :
    ([big0, big1].getD 0 dfltM).gridpoint.nth 0 =
      (if (ctxBig.my_right 0).nth 0 < ctxBig.box_l.nth 0
       then (ctxBig.my_right 0).nth 0 - mkRat 1 1000000
       else (ctxBig.my_right 0).nth 0) :=
  claim6_initial_gridpoint_bias ctxBig [big0, big1] (by decide!) 0 (by decide!) 0

/-- Counterexample for claim C6 as stated: in a box with cell size 1000 the
claimed bias scale `1e-6 · cell_size` is `1e-3`, but the actual bias applied
at construction is `1e-6` — more than two orders of magnitude smaller, so
the bias is NOT on the order of `1e-6 · cell_size`. -/
theorem claim6_counterexample :
    constructWorld ctxBig = .ok [big0, big1] ∧
    (ctxBig.my_right 0).nth 0 - big0.gridpoint.nth 0 = mkRat 1 1000000 ∧
    cellSize ctxBig 0 = 1000 ∧
    mkRat 1 1000000 * 100 < mkRat 1 1000000 * cellSize ctxBig 0 := by
  decide!

theorem getD_replicate {α : Type} (a d : α) :
    ∀ (n i : ℕ), i < n → (List.replicate n a).getD i d = a := by
  intro n
  induction n with
  | zero => intro i h; omega
  | succ n ih =>
    intro i h
    cases i with
    | zero => rfl
    | succ j => exact ih j (by omega)

theorem V3.ofFn_congr {f g : Fin 3 → ℚ} (h : ∀ d, f d = g d) : V3.ofFn f = V3.ofFn g := by
  unfold V3.ofFn
  rw [h 0, h 1, h 2]

/-- With a load that is the same nonzero constant on every rank, the
normalized loads are all 1, every flow term vanishes, and the candidate
corner equals the old corner. -/
theorem newCorner_const (ctx : Ctx) (me : ℕ) (st : MState) (lam : ℕ → ℚ) (rv : ℕ → V3)
    (c : ℚ) (hl : ∀ q, lam q = c) (hc : c ≠ 0) :
    newCorner ctx me st lam rv = st.gridpoint := by
  have hlam : gathered_lambda ctx me lam =
      List.replicate (source_neigh ctx me).length c := by
    unfold gathered_lambda
    have := List.eq_replicate_of_mem (a := c) (l := (source_neigh ctx me).map lam)
      (by intro b hb; obtain ⟨q, _, rfl⟩ := List.mem_map.mp hb; exact hl q)
    simpa using this
  have hpos : 0 < (source_neigh ctx me).length := by
    have : source_neigh ctx me ≠ [] := by simp [source_neigh]
    exact List.length_pos.mpr this
  have hn : ((source_neigh ctx me).length : ℚ) ≠ 0 := by
    exact_mod_cast Nat.pos_iff_ne_zero.mp hpos
  have hlnorm : (gathered_lambda ctx me lam).sum / ((source_neigh ctx me).length : ℚ) = c := by
    rw [hlam, List.sum_replicate, nsmul_eq_mul]
    exact mul_div_cancel_left₀ c hn
  have hhat : ∀ i, i < (source_neigh ctx me).length →
      (lambdaHat ctx me lam).getD i 0 = 1 := by
    intro i hi
    unfold lambdaHat
    unfold lnormalizer
    rw [hlnorm, hlam, List.map_replicate, getD_replicate _ _ _ _ hi]
    exact div_self hc
  unfold newCorner
  rw [← V3.ofFn_nth st.gridpoint]
  apply V3.ofFn_congr
  intro d
  rw [V3.nth_ofFn]
  by_cases hpin : cartCoords ctx.dims me d = ctx.dims d - 1
  · rw [if_pos hpin]
  · rw [if_neg hpin, add_right_eq_self]
    apply List.sum_eq_zero
    intro x hx
    obtain ⟨i, hi, rfl⟩ := List.mem_map.mp hx
    have hiB : i < (source_neigh ctx me).length := List.mem_range.mp hi
    unfold flowTerm
    rw [hhat i hiB]
    simp

theorem acceptState_eq_self (ctx : Ctx) (r : ℕ) (st : MState) (newgps : List V3)
    (h1 : newgps = st.gridpoints)
    (h2 : st.gridpoints.getD r (v3 0 0 0) = st.gridpoint)
    (h3 : st.is_regular_grid = false)
    (h4 : st.my_dom = bounding_box ctx st.gridpoints r)
    (h5 : st.neighbor_doms = (neighbor_ranks ctx r).map (bounding_box ctx st.gridpoints)) :
    acceptState ctx newgps r st = st := by
  subst h1
  unfold acceptState
  obtain ⟨gp, gps, reg, dom, nbd, cs, g2l, nl, ng, ex, mu⟩ := st
  simp only at h2 h3 h4 h5
  simp [h2, h3.symm, h4.symm, h5.symm]
  rw [← List.getD_eq_getElem?_getD]
  exact h2

/-- Claim C4, amended: if the load gathered in `repartition` is the same
positive constant on every rank, the computed displacement of every grid
point is zero — the candidate corners equal the old corners — and every
rank's state is bit-for-bit unchanged whether the step commits or rolls
back; the return value is true exactly when the unchanged corner
configuration passes the `2·min_cell_size` validity check.  The hypotheses
are the state invariants of a settled deformed decomposition: replicated
corners, octagons built from them, and a decomposition that is a fixpoint
of `reinit`. -/
theorem claim4_amended_uniform_load (ctx : Ctx) (lam : ℕ → ℚ) (rv : ℕ → V3)
    (sts : ℕ → MState) (c : ℚ)
    (hl : ∀ q, lam q = c) (hc : 0 < c)
    (hrepl : ∀ r, r < nNodes ctx →
      (sts r).gridpoints = (List.range (nNodes ctx)).map (fun q => (sts q).gridpoint))
    (hdom : ∀ r, r < nNodes ctx →
      (sts r).my_dom = bounding_box ctx (sts r).gridpoints r ∧
      (sts r).neighbor_doms = (neighbor_ranks ctx r).map (bounding_box ctx (sts r).gridpoints))
    (hreg : ∀ r, r < nNodes ctx → (sts r).is_regular_grid = false)
    (hfix : ∀ r, r < nNodes ctx → reinit ctx r (sts r) = .ok (sts r)) :
    newGridpoints ctx lam rv sts = (List.range (nNodes ctx)).map (fun q => (sts q).gridpoint) ∧
    repartition ctx lam rv sts =
      .ok ((if 0 < totalConflicts ctx
              ((List.range (nNodes ctx)).map (fun q => (sts q).gridpoint))
            then false else true),
           (List.range (nNodes ctx)).map sts) := by
  have hng : newGridpoints ctx lam rv sts =
      (List.range (nNodes ctx)).map (fun q => (sts q).gridpoint) := by
    unfold newGridpoints
    exact List.map_congr_left
      (fun q _ => newCorner_const ctx q (sts q) lam rv c hl (ne_of_gt hc))
  have hcons : ∀ r, r < nNodes ctx →
      ((sts r).gridpoints).getD r (v3 0 0 0) = (sts r).gridpoint := by
    intro r hr
    rw [hrepl r hr, getD_map_range _ _ hr]
  refine ⟨hng, ?_⟩
  simp only [repartition, hng]
  by_cases htot : 0 < totalConflicts ctx
      ((List.range (nNodes ctx)).map fun q => (sts q).gridpoint)
  · rw [if_pos htot, if_pos htot]
    have hmap : (List.range (nNodes ctx)).map
        (fun r => { sts r with gridpoint := ((sts r).gridpoints).getD r (v3 0 0 0) }) =
        (List.range (nNodes ctx)).map sts := by
      apply List.map_congr_left
      intro r hr
      exact mstate_set_gridpoint_self (sts r) _ (hcons r (List.mem_range.mp hr))
    rw [hmap]
  · rw [if_neg htot, if_neg htot]
    have hmm : mapME
        (fun r => reinit ctx r
          (acceptState ctx ((List.range (nNodes ctx)).map (fun q => (sts q).gridpoint))
            r (sts r)))
        (List.range (nNodes ctx)) = .ok ((List.range (nNodes ctx)).map sts) := by
      apply mapME_ok_of
      intro r hrm
      have hr : r < nNodes ctx := List.mem_range.mp hrm
      rw [acceptState_eq_self ctx r (sts r) _ (hrepl r hr).symm (hcons r hr) (hreg r hr)
        (hdom r hr).1 (hdom r hr).2]
      exact hfix r hr
    rw [hmm]

/-- Witness for claim C4 (amended) at the concrete deformed two-rank world
with unit load everywhere. -/
theorem claim4_witness :
    newGridpoints ctxW lamW rvW defWs =
      (List.range (nNodes ctxW)).map (fun q => (defWs q).gridpoint) ∧
    repartition ctxW lamW rvW defWs =
      .ok ((if 0 < totalConflicts ctxW
              ((List.range (nNodes ctxW)).map (fun q => (defWs q).gridpoint))
            then false else true),
           (List.range (nNodes ctxW)).map defWs) :=
  claim4_amended_uniform_load ctxW lamW rvW defWs 1 (fun _ => rfl) (by decide!)
    (by decide!) (by decide!) (by decide!) (by decide!)

/-- Counterexample for claim C4 as stated: at the concrete deformed world,
the load is the same positive constant on both ranks, yet `repartition`
returns FALSE (the standing corners are only one cell apart, so the
`2·min_cell_size` validity check fails on the unchanged configuration); the
claim's "repartition returns true" does not hold. -/
theorem claim4_counterexample :
    lamW 0 = lamW 1 ∧ 0 < lamW 0 ∧
    repartition ctxW lamW rvW defWs = .ok (false, [defW0, defW1]) :=
  ⟨rfl, by decide!, by decide!⟩

/-- Claim C9 (code bug): the third alternative of the capture group in the
source is `\d+.\d+` with an UNESCAPED dot, which in ECMAScript matches any
non-line-terminator character.  Hence the strings `mu = 1x5` and `mu = 155`
fully match the source regex and set μ (to `strtod("1x5") = 1` and
`strtod("155") = 155`), while the regex quoted by the spec (escaped dot,
`commandSpecMatches`) rejects both and says μ is unchanged; on well-formed
input such as `mu = 0.5` both agree. -/
theorem claim9_regex_unescaped_dot :
    command cmd1x5 7 = 1 ∧ commandSpecMatches cmd1x5 = false ∧
    command cmd155 7 = 155 ∧ commandSpecMatches cmd155 = false ∧
    command cmd05 7 = 1 / 2 ∧ commandSpecMatches cmd05 = true := by
  decide!

end Repa
